import Mathlib

/-!
A shallow embedding of the backtracking tokenizer of `src/src/main.py`
(py-lexical-parser): a transactional cursor over an input text, token
matchers running inside begin/commit/rollback frames, an eat-guard for
repetition loops, an ordered-alternative dispatcher and a driver loop.

Python exceptions are modelled by an explicit error type threaded through a
state monad `M`: an operation takes the cursor and returns a result
(`Except LexError α`) together with the cursor state at that moment —
exceptions in the source leave the mutated cursor in place, so the error
path keeps the state.  The source's `while` loops are modelled with an
explicit fuel parameter; fuel exhaustion is a distinguished error value
(`LexError.noFuel`) proved unreachable at the bounds used.
-/

namespace Pylex

deriving instance DecidableEq for Except

/-- `Token` record (main.py lines 7-12); `value` is the matched substring,
kept as a list of characters. -/
structure Token where
  ty : String
  value : List Char
  start_index : Nat
  end_index : Nat
deriving DecidableEq, Repr

/-- The failure signals of main.py as one error type.
`EatFailed comment failed_on_eof` is the consumption failure of lines 15-18;
`ParsingFailed` is the match failure of lines 21-22.
`crash` models a Python `IndexError` from touching `frames[-1]` / `pop()` on
an empty frame stack; `noFuel` is an artifact of bounding the source's
`while` loops with fuel, proved unreachable at the bounds used. -/
inductive LexError where
  | EatFailed (comment : String) (failed_on_eof : Bool)
  | ParsingFailed
  | crash
  | noFuel
deriving DecidableEq, Repr

/-- `Frame` (main.py lines 61-76): one in-flight match attempt. -/
structure Frame where
  start_index : Nat
  end_index : Nat
  text : List Char
deriving DecidableEq, Repr

/-- `Frame.value` (line 68-69): `text[start_index : end_index]`. -/
def Frame.value (f : Frame) : List Char :=
  (f.text.drop f.start_index).take (f.end_index - f.start_index)

/-- `Frame.length` (lines 71-73). -/
def Frame.length (f : Frame) : Nat := f.end_index - f.start_index

/-- `Frame.token` (lines 75-76). -/
def Frame.token (f : Frame) (ty : String) : Token :=
  Token.mk ty f.value f.start_index f.end_index

/-- `TransactionalCursor` (main.py lines 79-102): the input text and the
stack of frames, most recent FIRST (the Python list keeps the most recent
last; the head of `frames` here is Python's `frames[-1]`).
`base` is the base position of the cursor when the stack is empty.
Modelled from the spec: the scratch `TransactionalCursor` in src has no
base position (its `index` reads `frames[-1]` unconditionally and the
driver-level cursor class is absent from src); spec section 4.2 prescribes
"the `end` of the current top frame, or the base position if the stack is
empty". -/
structure TransactionalCursor where
  text : List Char
  base : Nat
  frames : List Frame
deriving DecidableEq, Repr

/-- `TransactionalCursor.index` (lines 86-87): the end of the top frame;
the fallback to `base` on an empty stack is modelled from the spec
(section 4.2), see `TransactionalCursor`. -/
def TransactionalCursor.index (c : TransactionalCursor) : Nat :=
  match c.frames with
  | f :: _ => f.end_index
  | [] => c.base

/-- `CursorEater.peek` (lines 47-48): the character at `index`, or `none`
for the `EOF` sentinel. -/
def TransactionalCursor.peek (c : TransactionalCursor) : Option Char :=
  c.text.get? c.index

/-- `TransactionalCursor.move` (lines 89-90): advance the end of the top
frame.  Only ever invoked as `move 1` from `eat_if`, which raises `crash`
itself when the stack is empty (Python would raise `IndexError` there), so
the empty case is never reached. -/
def TransactionalCursor.move (delta : Nat) (c : TransactionalCursor) : TransactionalCursor :=
  match c.frames with
  | f :: fs => TransactionalCursor.mk c.text c.base (Frame.mk f.start_index (f.end_index + delta) f.text :: fs)
  | [] => c

/-- `TransactionalCursor.commit` (lines 92-95): pop the top frame and, when
a frame remains below, copy the popped end into it.  When the popped frame
was the last one the source merely pops; that the committed end becomes the
new base position is modelled from the spec (section 4.2: "the committed
frame's span becomes the authoritative new base position").  Popping an
empty stack would raise in Python; it is modelled as the identity and never
reached (commit is only run after a matching `begin`). -/
def TransactionalCursor.commit (c : TransactionalCursor) : TransactionalCursor :=
  match c.frames with
  | top :: parent :: rest =>
      TransactionalCursor.mk c.text c.base (Frame.mk parent.start_index top.end_index parent.text :: rest)
  | [top] => TransactionalCursor.mk c.text top.end_index []
  | [] => c

/-- `TransactionalCursor.rollback` (lines 97-98): pop and discard the top
frame.  Popping an empty stack would raise in Python; modelled as the
identity and never reached. -/
def TransactionalCursor.rollback (c : TransactionalCursor) : TransactionalCursor :=
  TransactionalCursor.mk c.text c.base c.frames.tail

/-- `TransactionalCursor.begin` (lines 100-102): push a fresh frame whose
start and end are the current effective position. -/
def TransactionalCursor.begin (c : TransactionalCursor) : TransactionalCursor :=
  TransactionalCursor.mk c.text c.base (Frame.mk c.index c.index c.text :: c.frames)

/-- The cursor at the start of a run: text, base position 0, empty stack
(spec section 3: "Text and the base Position are created once per lexing
run"). -/
def initCursor (text : List Char) : TransactionalCursor :=
  TransactionalCursor.mk text 0 []

/-- The effect monad: Python's mutable cursor plus exceptions.  The state
survives an exception, so the error path returns the cursor too. -/
def M (α : Type) : Type :=
  TransactionalCursor → Except LexError α × TransactionalCursor

instance : Monad M where
  pure a := fun c => (Except.ok a, c)
  bind m k := fun c =>
    match m c with
    | (Except.ok a, c') => k a c'
    | (Except.error e, c') => (Except.error e, c')

theorem M.bind_def {α β : Type} (m : M α) (k : α → M β) (c : TransactionalCursor) :
    (m >>= k) c =
      match m c with
      | (Except.ok a, c') => k a c'
      | (Except.error e, c') => (Except.error e, c') := rfl

theorem M.pure_def {α : Type} (a : α) (c : TransactionalCursor) :
    (pure a : M α) c = (Except.ok a, c) := rfl

/-- A single quote character, used in the diagnostic strings of the source
(f-strings such as `only '{chr}'`). -/
def sq : String := String.singleton '\''

/-- What Python interpolates for the peeked value: the character itself, or
`EOF` (lines 25-30). -/
def peekStr : Option Char → String
  | some ch => String.singleton ch
  | none => "EOF"

/-- The message of the consumption failure raised in `eat_if` (line 58). -/
def eatMsg (i : Nat) (pk : Option Char) (comment : String) : String :=
  "At index " ++ toString i ++ " " ++ sq ++ peekStr pk ++ sq ++ " while parsing " ++ comment

/-- `CursorEater.eat_if` (lines 50-58): if the peeked character exists and
satisfies the predicate, advance the top frame's end by one (via `move 1`)
and return it; otherwise raise `EatFailed` with `failed_on_eof` recording
whether the peek hit end of input.  A successful predicate with an empty
frame stack would make Python's `move` raise `IndexError`; that is the
`crash` branch. -/
def eat_if (p : Char → Bool) (comment : String) : M Char := fun c =>
  match c.peek with
  | some ch =>
      if p ch then
        if c.frames.isEmpty then (Except.error LexError.crash, c)
        else (Except.ok ch, c.move 1)
      else (Except.error (LexError.EatFailed (eatMsg c.index (some ch) comment) false), c)
  | none => (Except.error (LexError.EatFailed (eatMsg c.index none comment) true), c)

/-- `eat_only` as in the commented-out `FancyCursor` block of main.py
(lines 113-114): consume exactly the given character. -/
def eat_only (ch : Char) : M Char :=
  eat_if (fun c => c == ch) ("only " ++ sq ++ String.singleton ch ++ sq)

/-- `eat_any` as in the commented-out `FancyCursor` block of main.py
(lines 116-117): consume any character of the given list. -/
def eat_any (lchr : List Char) : M Char :=
  eat_if (fun c => lchr.contains c) ("any of " ++ sq ++ String.mk lchr ++ sq)

/-- Read `peek` as a monadic value (used by `p_dec`'s
`if scoped_cursor.peek() == "."`). -/
def peekM : M (Option Char) := fun c => (Except.ok c.peek, c)

/-- `transaction` (main.py lines 120-128): begin a frame, run the body; on
success commit, on any failure rollback and re-raise the same failure. -/
def transaction {α : Type} (body : M α) : M α := fun c =>
  match body c.begin with
  | (Except.ok a, c2) => (Except.ok a, c2.commit)
  | (Except.error e, c2) => (Except.error e, c2.rollback)

/-- How the matchers' scope converts an exception: a consumption failure is
re-raised as the terminal match failure; a match failure stays itself;
model artifacts pass through unchanged. -/
def convertErr : LexError → LexError
  | LexError.EatFailed _ _ => LexError.ParsingFailed
  | LexError.ParsingFailed => LexError.ParsingFailed
  | e => e

/-- Modelled from the spec: `scoped`, the transaction scope every matcher
in main.py actually enters (`with scoped(cursor) as scoped_cursor`), is
absent from src — only its call sites are, and the `transaction` manager
above (a scratch variant) re-raises the raw failure.  Per spec section 4.3,
on every failure the scope rolls back and the failure is re-raised as the
terminal "this matcher does not apply here" signal (`ParsingFailed`); on
success it commits.  The frame opened by `begin` is returned alongside the
body's value so the matcher can mint a token from its final span. -/
def scopedTr {α : Type} (body : M α) : M (α × Frame) := fun c =>
  match body c.begin with
  | (Except.ok a, c2) =>
      match c2.frames with
      | f :: _ => (Except.ok (a, f), c2.commit)
      | [] => (Except.error LexError.crash, c2)
  | (Except.error e, c2) => (Except.error (convertErr e), c2.rollback)

/-- A matcher's shape in main.py: run the body inside `scoped`, then mint
`scoped_cursor.token(ty)` from the frame's final span. -/
def scopedToken {α : Type} (ty : String) (body : M α) : M Token := fun c =>
  match scopedTr body c with
  | (Except.ok (_, f), c') => (Except.ok (f.token ty), c')
  | (Except.error e, c') => (Except.error e, c')

/-- `guard` (main.py lines 131-139): run the body; a consumption failure is
swallowed when it failed on end of input or when not in `eof_only` mode,
and re-raised otherwise; every other outcome passes through. -/
def guard {α : Type} (eof_only : Bool) (body : M α) : M Unit := fun c =>
  match body c with
  | (Except.ok _, c') => (Except.ok (), c')
  | (Except.error (LexError.EatFailed cm b), c') =>
      if b || !eof_only then (Except.ok (), c')
      else (Except.error (LexError.EatFailed cm b), c')
  | (Except.error e, c') => (Except.error e, c')

/-- The body of a `while scoped_cursor.eat_if(p, cm): pass` loop, with
fuel: repeat `eat_if` until it raises (the loop in the source can only exit
through an exception, since `eat_if` returns a one-character string, which
is always truthy). -/
def eatStarFuel (p : Char → Bool) (comment : String) : Nat → M Unit
  | 0 => fun c => (Except.error LexError.noFuel, c)
  | Nat.succ n => fun c =>
      match eat_if p comment c with
      | (Except.ok _, c') => eatStarFuel p comment n c'
      | (Except.error e, c') => (Except.error e, c')

/-- The `while eat_if` loop, run with enough fuel to reach the end of the
text from the current position (each successful `eat_if` advances the
position by one, so `length - index + 1` rounds never run dry). -/
def eatStar (p : Char → Bool) (comment : String) : M Unit := fun c =>
  eatStarFuel p comment (c.text.length - c.index + 1) c

/-- `with guard(): while scoped_cursor.eat_if(p, cm): pass` — the
guard-wrapped greedy repetition used by the matchers (default mode,
`eof_only = false`). -/
def wstar (p : Char → Bool) (comment : String) : M Unit :=
  guard false (eatStar p comment)

/-- The characters accepted as a hex digit by `p_hex` (line 185). -/
def hexDigits : List Char := "0123456789abcdefABCDEF".toList

/-- The characters accepted as a binary digit by `p_bin` (line 199). -/
def binDigits : List Char := "01".toList

/-- The characters accepted as a decimal digit by `p_dec` (line 211). -/
def decDigits : List Char := "0123456789".toList

/-- `p_str` (main.py lines 160-169): a quote, anything but that quote under
the guard, the same quote again; token kind `STRING`. -/
def p_str : M Token :=
  scopedToken "STRING" (do
    let quote ← eat_any [ '\'', '"' ]
    wstar (fun c => c != quote) ("anything but " ++ String.singleton quote)
    let _ ← eat_only quote
    pure ())

/-- `p_dot` (main.py lines 172-177): exactly one `.`; token kind `DOT`. -/
def p_dot : M Token :=
  scopedToken "DOT" (do
    let _ ← eat_only '.'
    pure ())

/-- `p_hex` (main.py lines 180-191): `0`, `x`, one hex digit, then hex
digits under the guard; token kind `HEX`. -/
def p_hex : M Token :=
  scopedToken "HEX" (do
    let _ ← eat_only '0'
    let _ ← eat_only 'x'
    let _ ← eat_if (fun c => hexDigits.contains c) "hex digit"
    wstar (fun c => hexDigits.contains c) "hex digit")

/-- `p_bin` (main.py lines 194-205): `0`, `b`, one binary digit, then
binary digits under the guard; token kind `BIN`. -/
def p_bin : M Token :=
  scopedToken "BIN" (do
    let _ ← eat_only '0'
    let _ ← eat_only 'b'
    let _ ← eat_if (fun c => binDigits.contains c) "bin digit"
    wstar (fun c => binDigits.contains c) "bin digit")

/-- `p_dec` (main.py lines 208-224): one decimal digit, then digits under
the guard; if the peeked character is `.`, consume it, require one decimal
digit, then digits under the guard; token kind `DEC`. -/
def p_dec : M Token :=
  scopedToken "DEC" (do
    let _ ← eat_if (fun c => decDigits.contains c) "dec digit"
    wstar (fun c => decDigits.contains c) "dec digit"
    let pk ← peekM
    if pk = some '.' then do
      let _ ← eat_only '.'
      let _ ← eat_if (fun c => decDigits.contains c) "dec digit"
      wstar (fun c => decDigits.contains c) "dec digit"
    else pure ())

/-- `first_parser` (main.py lines 227-233): try each rule in order; a
`ParsingFailed` is caught and the next rule tried; any other failure
propagates; when the rules run out, raise `ParsingFailed`.  (The source
name ends in a suffix this development cannot use, hence the camel case.) -/
def firstParser : List (M Token) → M Token
  | [] => fun c => (Except.error LexError.ParsingFailed, c)
  | p :: ps => fun c =>
      match p c with
      | (Except.ok t, c') => (Except.ok t, c')
      | (Except.error LexError.ParsingFailed, c') => firstParser ps c'
      | (Except.error e, c') => (Except.error e, c')

/-- The registry contents in registration order (the decorators of main.py
run top to bottom: lines 160, 172, 180, 194, 208). -/
def registeredParsers : List (M Token) :=
  [p_str, p_dot, p_hex, p_bin, p_dec]

/-- `root_parser` (main.py lines 236-239) together with the driver loop
that collects its tokens: while `peek` is not `EOF`, run the dispatcher
and append its token.  Fuel bounds the loop; exhaustion is `noFuel`.
(The source name ends in a suffix this development cannot use, hence the
camel case.) -/
def rootParser (fuel : Nat) : M (List Token) := fun c =>
  match fuel with
  | 0 => (Except.error LexError.noFuel, c)
  | Nat.succ n =>
      match c.peek with
      | none => (Except.ok [], c)
      | some _ =>
          match firstParser registeredParsers c with
          | (Except.ok t, c') =>
              match rootParser n c' with
              | (Except.ok ts, c'') => (Except.ok (t :: ts), c'')
              | (Except.error e, c'') => (Except.error e, c'')
          | (Except.error e, c') => (Except.error e, c')

/-! ### Basic facts about the cursor operations -/

theorem index_cons (t : List Char) (b : Nat) (f : Frame) (fs : List Frame) :
    (TransactionalCursor.mk t b (f :: fs)).index = f.end_index := rfl

theorem index_nil (t : List Char) (b : Nat) :
    (TransactionalCursor.mk t b []).index = b := rfl

/-- A monadic step is stack-neutral when, run on a cursor whose stack is
nonempty, it preserves the text, the base and every frame below the top,
and keeps the stack nonempty with the same tail.  Every matcher body has
this shape; it is what makes a rollback restore the enclosing position. -/
def StackNeutral {α : Type} (m : M α) : Prop :=
  ∀ c r c' f fs, c.frames = f :: fs → m c = (r, c') →
    c'.text = c.text ∧ c'.base = c.base ∧ ∃ g, c'.frames = g :: fs

theorem eat_if_stackNeutral (p : Char → Bool) (cm : String) :
    StackNeutral (eat_if p cm) := by
  intro c r c' f fs hc h
  obtain ⟨t, b, fr⟩ := c
  have hfr : fr = f :: fs := hc
  subst hfr
  rcases hpk : (TransactionalCursor.mk t b (f :: fs)).peek with _ | ch
  · simp [eat_if, hpk] at h
    obtain ⟨h1, h2⟩ := h
    subst h2
    exact ⟨rfl, rfl, f, rfl⟩
  · rcases hpch : p ch with _ | _
    · simp [eat_if, hpk, hpch] at h
      obtain ⟨h1, h2⟩ := h
      subst h2
      exact ⟨rfl, rfl, f, rfl⟩
    · simp [eat_if, hpk, hpch, TransactionalCursor.move] at h
      obtain ⟨h1, h2⟩ := h
      subst h2
      exact ⟨rfl, rfl, Frame.mk f.start_index (f.end_index + 1) f.text, rfl⟩

theorem eat_only_stackNeutral (ch : Char) : StackNeutral (eat_only ch) :=
  eat_if_stackNeutral _ _

/-- Evaluation lemma for `eat_if` on a nonempty frame stack (shared
helper). -/
theorem eat_if_eval (p : Char → Bool) (cm : String) (c : TransactionalCursor)
    (f : Frame) (fs : List Frame) (hc : c.frames = f :: fs) :
    (∀ ch : Char, c.peek = some ch → p ch = true →
       eat_if p cm c =
         (Except.ok ch,
          TransactionalCursor.mk c.text c.base
            (Frame.mk f.start_index (f.end_index + 1) f.text :: fs))) ∧
    (∀ ch : Char, c.peek = some ch → p ch = false →
       eat_if p cm c =
         (Except.error (LexError.EatFailed (eatMsg c.index (some ch) cm) false), c)) ∧
    (c.peek = none →
       eat_if p cm c =
         (Except.error (LexError.EatFailed (eatMsg c.index none cm) true), c)) := by
  obtain ⟨t, b, fr⟩ := c
  have hfr : fr = f :: fs := hc
  subst hfr
  refine ⟨?_, ?_, ?_⟩
  · intro ch hpk hp
    simp [eat_if, hpk, hp, TransactionalCursor.move]
  · intro ch hpk hp
    simp [eat_if, hpk, hp]
  · intro hpk
    simp [eat_if, hpk]

/-- **C5.** `eat_if predicate comment`: when the peeked character exists
and satisfies the predicate it advances the top frame's end by exactly one
and returns that character; otherwise it raises `EatFailed` whose
`failed_on_eof` flag is `true` exactly when the peek hit end of input, and
it leaves the cursor — every frame's start and end — unchanged. -/
theorem eat_if_consume_or_fail (p : Char → Bool) (cm : String) (c : TransactionalCursor)
    (f : Frame) (fs : List Frame) (hc : c.frames = f :: fs) :
    (∀ ch : Char, c.peek = some ch → p ch = true →
       eat_if p cm c =
         (Except.ok ch,
          TransactionalCursor.mk c.text c.base
            (Frame.mk f.start_index (f.end_index + 1) f.text :: fs))) ∧
    (∀ ch : Char, c.peek = some ch → p ch = false →
       eat_if p cm c =
         (Except.error (LexError.EatFailed (eatMsg c.index (some ch) cm) false), c)) ∧
    (c.peek = none →
       eat_if p cm c =
         (Except.error (LexError.EatFailed (eatMsg c.index none cm) true), c)) :=
  eat_if_eval p cm c f fs hc

/-- Witness for C5: consuming `'b'` at index 1 of `"ab"` succeeds and
advances the top frame's end from 1 to 2. -/
theorem eat_if_consume_or_fail_witness :
    eat_if (fun ch => ch == 'b') "w"
        (TransactionalCursor.mk [ 'a', 'b' ] 0 [Frame.mk 0 1 [ 'a', 'b' ]]) =
      (Except.ok 'b',
       TransactionalCursor.mk [ 'a', 'b' ] 0 [Frame.mk 0 2 [ 'a', 'b' ]]) :=
  (eat_if_consume_or_fail _ _ _ _ _ rfl).1 'b' (by decide) (by decide)

/-- **C3.** `commit` pops the top frame; when a frame remains below, the
parent frame's end becomes the popped frame's end (and the base is
untouched); when no parent remains, the popped frame's end becomes the new
base position.  In both cases the effective position after the commit is
the committed frame's end. -/
theorem commit_propagates (c : TransactionalCursor) (top : Frame) (rest : List Frame)
    (hc : c.frames = top :: rest) :
    c.commit.text = c.text ∧
    c.commit.index = top.end_index ∧
    (∀ parent rest', rest = parent :: rest' →
       c.commit.frames = Frame.mk parent.start_index top.end_index parent.text :: rest' ∧
       c.commit.base = c.base) ∧
    (rest = [] → c.commit.frames = [] ∧ c.commit.base = top.end_index) := by
  obtain ⟨t, b, fr⟩ := c
  have hfr : fr = top :: rest := hc
  subst hfr
  cases rest with
  | nil =>
      refine ⟨rfl, rfl, ?_, fun _ => ⟨rfl, rfl⟩⟩
      intro parent rest' h
      cases h
  | cons parent rest' =>
      refine ⟨rfl, rfl, ?_, ?_⟩
      · intro parent₂ rest₂ h
        cases h
        exact ⟨rfl, rfl⟩
      · intro h
        cases h

/-- Witness for C3: committing the inner of two frames writes its end (2)
into the parent frame and the position after the commit is 2. -/
theorem commit_propagates_witness :
    (TransactionalCursor.mk [ 'a', 'b' ] 0
        [Frame.mk 1 2 [ 'a', 'b' ], Frame.mk 0 1 [ 'a', 'b' ]]).commit.frames =
      [Frame.mk 0 2 [ 'a', 'b' ]] ∧
    (TransactionalCursor.mk [ 'a', 'b' ] 0
        [Frame.mk 1 2 [ 'a', 'b' ], Frame.mk 0 1 [ 'a', 'b' ]]).commit.index = 2 :=
  ⟨((commit_propagates _ _ _ rfl).2.2.1 _ _ rfl).1, (commit_propagates _ _ _ rfl).2.1⟩

/-- **C1.** Rollback exactness: a stack-neutral matcher body run inside a
transaction scope (`transaction`, and likewise the matchers' `scoped`
scope) that signals a failure leaves the effective position — and in fact
the whole cursor — exactly as it was before `begin` was called, at every
nesting depth, provided an enclosing frame exists below the one rolled
back. -/
theorem transaction_rollback_exact {α : Type} (body : M α) (hb : StackNeutral body)
    (c c' c₂ : TransactionalCursor) (f : Frame) (fs : List Frame) (e e₂ : LexError)
    (hc : c.frames = f :: fs)
    (ht : transaction body c = (Except.error e, c'))
    (hs : scopedTr body c = (Except.error e₂, c₂)) :
    c' = c ∧ c'.index = c.index ∧ c₂ = c ∧ c₂.index = c.index := by
  obtain ⟨t, b, fr⟩ := c
  have hfr : fr = f :: fs := hc
  subst hfr
  rcases hbody : body (TransactionalCursor.mk t b (f :: fs)).begin with ⟨res, cm2⟩
  obtain ⟨htext, hbase, g, hframes⟩ :=
    hb _ _ _ (Frame.mk f.end_index f.end_index t) (f :: fs) rfl hbody
  cases res with
  | ok a => simp [transaction, hbody] at ht
  | error e' =>
      simp [transaction, hbody] at ht
      simp [scopedTr, hbody] at hs
      obtain ⟨he, hc'⟩ := ht
      obtain ⟨he₂, hc₂⟩ := hs
      obtain ⟨t2, b2, fr2⟩ := cm2
      have htext' : t2 = t := htext
      have hbase' : b2 = b := hbase
      have hframes' : fr2 = g :: f :: fs := hframes
      subst htext'; subst hbase'; subst hframes'
      subst hc'; subst hc₂
      exact ⟨rfl, rfl, rfl, rfl⟩

/-- Witness for C1: `eat_only 'x'` fails on text `"a"` inside a
transaction opened above an enclosing frame; both scope forms return the
cursor unchanged. -/
theorem transaction_rollback_exact_witness :
    (transaction (eat_only 'x')
        (TransactionalCursor.mk [ 'a' ] 0 [Frame.mk 0 0 [ 'a' ]])).snd =
      TransactionalCursor.mk [ 'a' ] 0 [Frame.mk 0 0 [ 'a' ]] ∧
    (scopedTr (eat_only 'x')
        (TransactionalCursor.mk [ 'a' ] 0 [Frame.mk 0 0 [ 'a' ]])).snd =
      TransactionalCursor.mk [ 'a' ] 0 [Frame.mk 0 0 [ 'a' ]] := by
  have h := transaction_rollback_exact (eat_only 'x') (eat_only_stackNeutral 'x')
    (TransactionalCursor.mk [ 'a' ] 0 [Frame.mk 0 0 [ 'a' ]])
    (transaction (eat_only 'x') (TransactionalCursor.mk [ 'a' ] 0 [Frame.mk 0 0 [ 'a' ]])).snd
    (scopedTr (eat_only 'x') (TransactionalCursor.mk [ 'a' ] 0 [Frame.mk 0 0 [ 'a' ]])).snd
    (Frame.mk 0 0 [ 'a' ]) []
    (LexError.EatFailed (eatMsg 0 (some 'a') ("only " ++ sq ++ String.singleton 'x' ++ sq)) false)
    LexError.ParsingFailed
    rfl (by decide) (by decide)
  exact ⟨h.1, h.2.2.1⟩

/-- **C6 (amended).** The Eat Guard swallows a consumption failure that
occurred because input was exhausted in every mode; in the default
(`eof_only = false`) mode it also swallows a consumption failure on a
present non-matching character; in the stricter `eof_only` mode such a
failure is re-raised, not swallowed. -/
theorem guard_swallow (eofOnly : Bool) {α : Type} (body : M α) (c : TransactionalCursor) :
    (∀ a c', body c = (Except.ok a, c') → guard eofOnly body c = (Except.ok (), c')) ∧
    (∀ cm c', body c = (Except.error (LexError.EatFailed cm true), c') →
       guard eofOnly body c = (Except.ok (), c')) ∧
    (∀ cm c', body c = (Except.error (LexError.EatFailed cm false), c') →
       guard eofOnly body c =
         if eofOnly then (Except.error (LexError.EatFailed cm false), c')
         else (Except.ok (), c')) := by
  refine ⟨?_, ?_, ?_⟩
  · intro a c' h
    simp [guard, h]
  · intro cm c' h
    simp [guard, h]
  · intro cm c' h
    cases eofOnly with
    | false => simp [guard, h]
    | true => simp [guard, h]

/-- Witness for C6's amended statement: in `eof_only` mode a consumption
failure on the present, non-matching character `'a'` is re-raised. -/
theorem guard_swallow_witness :
    guard true (eat_if (fun _ => false) "w")
        (TransactionalCursor.mk [ 'a' ] 0 [Frame.mk 0 0 [ 'a' ]]) =
      (Except.error (LexError.EatFailed (eatMsg 0 (some 'a') "w") false),
       TransactionalCursor.mk [ 'a' ] 0 [Frame.mk 0 0 [ 'a' ]]) :=
  (guard_swallow true (eat_if (fun _ => false) "w")
      (TransactionalCursor.mk [ 'a' ] 0 [Frame.mk 0 0 [ 'a' ]])).2.2
    (eatMsg 0 (some 'a') "w")
    (TransactionalCursor.mk [ 'a' ] 0 [Frame.mk 0 0 [ 'a' ]]) (by decide)

/-- Counterexample to C6 as stated: in the stricter `eof_only` mode a
consumption failure due to a non-matching-but-present character is NOT
swallowed — the guard re-raises it instead of ending the loop normally. -/
theorem guard_eof_only_reraises :
    guard true (eat_if (fun _ => false) "w")
        (TransactionalCursor.mk [ 'a' ] 0 [Frame.mk 0 0 [ 'a' ]]) =
      (Except.error (LexError.EatFailed (eatMsg 0 (some 'a') "w") false),
       TransactionalCursor.mk [ 'a' ] 0 [Frame.mk 0 0 [ 'a' ]]) := by
  decide

/-! ### The guard-wrapped repetition loop -/

/-- A successful `eat_if` presupposes a nonempty stack and a peeked
character satisfying the predicate, and advances the top frame's end by
one. -/
theorem eat_if_ok_shape (p : Char → Bool) (cm : String) (c : TransactionalCursor)
    (ch : Char) (c' : TransactionalCursor) (h : eat_if p cm c = (Except.ok ch, c')) :
    ∃ f fs, c.frames = f :: fs ∧ c.peek = some ch ∧ p ch = true ∧
      c' = TransactionalCursor.mk c.text c.base
             (Frame.mk f.start_index (f.end_index + 1) f.text :: fs) := by
  obtain ⟨t, b, fr⟩ := c
  rcases hpk : (TransactionalCursor.mk t b fr).peek with _ | ch₂
  · simp [eat_if, hpk] at h
  · rcases hpch : p ch₂ with _ | _
    · simp [eat_if, hpk, hpch] at h
    · cases fr with
      | nil => simp [eat_if, hpk, hpch] at h
      | cons f fs =>
          simp [eat_if, hpk, hpch, TransactionalCursor.move] at h
          obtain ⟨h1, h2⟩ := h
          subst h1
          refine ⟨f, fs, rfl, rfl, hpch, ?_⟩
          exact h2.symm

/-- With fuel exceeding the remaining text, the bare `while eat_if` loop
always exits through a consumption failure: the frames below the top are
untouched, the top frame's start is kept, its end only grows over
characters that all satisfy the predicate, and the loop stops either at
end of input (flag `true`) or at the first character failing the predicate
(flag `false`), which is not consumed. -/
theorem eatStarFuel_runs (p : Char → Bool) (cm : String) :
    ∀ (fuel : Nat) (t : List Char) (b : Nat) (f : Frame) (fs : List Frame),
      t.length - f.end_index < fuel →
      ∃ (g : Frame) (msg : String) (eofFlag : Bool),
        eatStarFuel p cm fuel (TransactionalCursor.mk t b (f :: fs)) =
          (Except.error (LexError.EatFailed msg eofFlag),
           TransactionalCursor.mk t b (g :: fs)) ∧
        g.start_index = f.start_index ∧ g.text = f.text ∧
        f.end_index ≤ g.end_index ∧
        (∀ j, f.end_index ≤ j → j < g.end_index →
           ∃ ch, t.get? j = some ch ∧ p ch = true) ∧
        ((t.get? g.end_index = none ∧ eofFlag = true) ∨
         (∃ ch, t.get? g.end_index = some ch ∧ p ch = false ∧ eofFlag = false)) := by
  intro fuel
  induction fuel with
  | zero =>
      intro t b f fs hlt
      exact absurd hlt (Nat.not_lt_zero _)
  | succ n ih =>
      intro t b f fs hlt
      have hpkdef : (TransactionalCursor.mk t b (f :: fs)).peek = t.get? f.end_index := rfl
      rcases hpk : t.get? f.end_index with _ | ch
      · have heat := (eat_if_eval p cm _ f fs rfl).2.2 (hpkdef.trans hpk)
        refine ⟨f, eatMsg (TransactionalCursor.mk t b (f :: fs)).index none cm, true,
          ?_, rfl, rfl, Nat.le_refl _, ?_, Or.inl ⟨hpk, rfl⟩⟩
        · simp [eatStarFuel, heat]
        · intro j hj1 hj2
          omega
      · rcases hpch : p ch with _ | _
        · have heat := (eat_if_eval p cm _ f fs rfl).2.1 ch (hpkdef.trans hpk) hpch
          refine ⟨f, eatMsg (TransactionalCursor.mk t b (f :: fs)).index (some ch) cm, false,
            ?_, rfl, rfl, Nat.le_refl _, ?_, Or.inr ⟨ch, hpk, hpch, rfl⟩⟩
          · simp [eatStarFuel, heat]
          · intro j hj1 hj2
            omega
        · have heat := (eat_if_eval p cm _ f fs rfl).1 ch (hpkdef.trans hpk) hpch
          have hlen : f.end_index < t.length := (List.get?_eq_some.mp hpk).1
          obtain ⟨g, msg, eofFlag, heval, hgs, hgt, hge, hcons, hexit⟩ :=
            ih t b (Frame.mk f.start_index (f.end_index + 1) f.text) fs (by dsimp only; omega)
          dsimp only at heval hgs hgt hge hcons hexit
          refine ⟨g, msg, eofFlag, ?_, hgs, hgt, by omega, ?_, hexit⟩
          · simp only [eatStarFuel, heat]
            exact heval
          · intro j hj1 hj2
            rcases Nat.eq_or_lt_of_le hj1 with hj | hj
            · refine ⟨ch, ?_, hpch⟩
              rw [← hj]
              exact hpk
            · exact hcons j (by omega) hj2

/-- Beyond the canonical bound, the fuel given to the `while eat_if` loop
does not affect its result: the loop genuinely terminates. -/
theorem eatStarFuel_fuel_irrel (p : Char → Bool) (cm : String) :
    ∀ (n m : Nat) (t : List Char) (b : Nat) (f : Frame) (fs : List Frame),
      t.length - f.end_index < n → t.length - f.end_index < m →
      eatStarFuel p cm n (TransactionalCursor.mk t b (f :: fs)) =
        eatStarFuel p cm m (TransactionalCursor.mk t b (f :: fs)) := by
  intro n
  induction n with
  | zero =>
      intro m t b f fs hn hm
      exact absurd hn (Nat.not_lt_zero _)
  | succ n ih =>
      intro m t b f fs hn hm
      cases m with
      | zero => exact absurd hm (Nat.not_lt_zero _)
      | succ m' =>
          rcases heat : eat_if p cm (TransactionalCursor.mk t b (f :: fs)) with ⟨res, c₁⟩
          cases res with
          | error e => simp [eatStarFuel, heat]
          | ok ch =>
              obtain ⟨f', fs', hcf, hpk, hpch, hc₁⟩ :=
                eat_if_ok_shape p cm _ ch c₁ heat
              have hcf' : f :: fs = f' :: fs' := hcf
              injection hcf' with h1 h2
              subst h1
              subst h2
              have hpk' : t.get? f.end_index = some ch := hpk
              have hlen : f.end_index < t.length := (List.get?_eq_some.mp hpk').1
              subst hc₁
              simp only [eatStarFuel, heat]
              exact ih m' t b (Frame.mk f.start_index (f.end_index + 1) f.text) fs
                (by dsimp only; omega) (by dsimp only; omega)

/-- **C7.** Every guard-wrapped `while eat_if` repetition loop (the `wstar`
shape used in `p_str`, `p_hex`, `p_bin`, `p_dec`) terminates for every
input text and exits normally; on exit the position sits either at end of
input or at the first character failing the predicate, which is not
consumed; the characters consumed before that point all satisfy the
predicate and remain consumed; and the loop's result is unchanged by any
extra fuel beyond the canonical bound. -/
theorem wstar_terminates (p : Char → Bool) (cm : String) (c : TransactionalCursor)
    (f : Frame) (fs : List Frame) (hc : c.frames = f :: fs) :
    ∃ g : Frame,
      wstar p cm c = (Except.ok (), TransactionalCursor.mk c.text c.base (g :: fs)) ∧
      g.start_index = f.start_index ∧ g.text = f.text ∧
      f.end_index ≤ g.end_index ∧
      (∀ j, f.end_index ≤ j → j < g.end_index →
         ∃ ch, c.text.get? j = some ch ∧ p ch = true) ∧
      (c.text.get? g.end_index = none ∨
       ∃ ch, c.text.get? g.end_index = some ch ∧ p ch = false) ∧
      (∀ extra : Nat,
         eatStarFuel p cm (c.text.length - c.index + 1 + extra) c =
           eatStarFuel p cm (c.text.length - c.index + 1) c) := by
  obtain ⟨t, b, fr⟩ := c
  have hfr : fr = f :: fs := hc
  subst hfr
  dsimp only
  obtain ⟨g, msg, eofFlag, heval, hgs, hgt, hge, hcons, hexit⟩ :=
    eatStarFuel_runs p cm (t.length - f.end_index + 1) t b f fs (by omega)
  have hidx : (TransactionalCursor.mk t b (f :: fs)).index = f.end_index := rfl
  refine ⟨g, ?_, hgs, hgt, hge, hcons, ?_, ?_⟩
  · simp [wstar, guard, eatStar, hidx, heval]
  · rcases hexit with ⟨hnone, _⟩ | ⟨ch, hsome, hp, _⟩
    · exact Or.inl hnone
    · exact Or.inr ⟨ch, hsome, hp⟩
  · intro extra
    rw [hidx]
    exact eatStarFuel_fuel_irrel p cm _ _ t b f fs (by omega) (by omega)

/-- Witness for C7: on text `"aab"`, consuming `'a'`s from position 0, the
loop's result is the same with fuel 9 as with the canonical fuel 4. -/
theorem wstar_terminates_witness :
    eatStarFuel (fun ch => ch == 'a') "w" 9
        (TransactionalCursor.mk [ 'a', 'a', 'b' ] 0 [Frame.mk 0 0 [ 'a', 'a', 'b' ]]) =
      eatStarFuel (fun ch => ch == 'a') "w" 4
        (TransactionalCursor.mk [ 'a', 'a', 'b' ] 0 [Frame.mk 0 0 [ 'a', 'a', 'b' ]]) := by
  obtain ⟨g, heval, hgs, hgt, hge, hcons, hexit, hirrel⟩ :=
    wstar_terminates (fun ch => ch == 'a') "w"
      (TransactionalCursor.mk [ 'a', 'a', 'b' ] 0 [Frame.mk 0 0 [ 'a', 'a', 'b' ]])
      (Frame.mk 0 0 [ 'a', 'a', 'b' ]) [] rfl
  exact hirrel 5

/-! ### Matcher bodies and the scoped transaction -/

/-- The shape of every matcher body: run on a nonempty frame stack it
preserves the text, the base and the frames below the top; the top frame
keeps its start and text and its end only grows; and the only failures it
signals are consumption failures. -/
def BodyGood {α : Type} (m : M α) : Prop :=
  ∀ c r c' f fs, c.frames = f :: fs → m c = (r, c') →
    c'.text = c.text ∧ c'.base = c.base ∧
    (∃ g, c'.frames = g :: fs ∧ g.start_index = f.start_index ∧ g.text = f.text ∧
       f.end_index ≤ g.end_index) ∧
    (∀ e, r = Except.error e → ∃ s b, e = LexError.EatFailed s b)

theorem bodyGood_eat_if (p : Char → Bool) (cm : String) : BodyGood (eat_if p cm) := by
  intro c r c' f fs hc h
  obtain ⟨t, b, fr⟩ := c
  have hfr : fr = f :: fs := hc
  subst hfr
  rcases hpk : (TransactionalCursor.mk t b (f :: fs)).peek with _ | ch
  · rw [(eat_if_eval p cm _ f fs rfl).2.2 hpk] at h
    injection h with h1 h2
    subst h1; subst h2
    refine ⟨rfl, rfl, ⟨f, rfl, rfl, rfl, Nat.le_refl _⟩, ?_⟩
    intro e he
    injection he with he'
    exact ⟨_, _, he'.symm⟩
  · rcases hpch : p ch with _ | _
    · rw [(eat_if_eval p cm _ f fs rfl).2.1 ch hpk hpch] at h
      injection h with h1 h2
      subst h1; subst h2
      refine ⟨rfl, rfl, ⟨f, rfl, rfl, rfl, Nat.le_refl _⟩, ?_⟩
      intro e he
      injection he with he'
      exact ⟨_, _, he'.symm⟩
    · rw [(eat_if_eval p cm _ f fs rfl).1 ch hpk hpch] at h
      injection h with h1 h2
      subst h1; subst h2
      refine ⟨rfl, rfl,
        ⟨Frame.mk f.start_index (f.end_index + 1) f.text, rfl, rfl, rfl, by dsimp only; omega⟩, ?_⟩
      intro e he
      exact absurd he (by simp)

theorem bodyGood_eat_only (ch : Char) : BodyGood (eat_only ch) := by
  unfold eat_only
  exact bodyGood_eat_if _ _

theorem bodyGood_eat_any (l : List Char) : BodyGood (eat_any l) := by
  unfold eat_any
  exact bodyGood_eat_if _ _

theorem bodyGood_pure {α : Type} (a : α) : BodyGood (pure a : M α) := by
  intro c r c' f fs hc h
  rw [M.pure_def] at h
  injection h with h1 h2
  subst h1; subst h2
  refine ⟨rfl, rfl, ⟨f, hc, rfl, rfl, Nat.le_refl _⟩, ?_⟩
  intro e he
  exact absurd he (by simp)

theorem bodyGood_peekM : BodyGood peekM := by
  intro c r c' f fs hc h
  injection h with h1 h2
  subst h1; subst h2
  refine ⟨rfl, rfl, ⟨f, hc, rfl, rfl, Nat.le_refl _⟩, ?_⟩
  intro e he
  exact absurd he (by simp)

theorem bodyGood_bind {α β : Type} (m : M α) (k : α → M β)
    (hm : BodyGood m) (hk : ∀ a, BodyGood (k a)) : BodyGood (m >>= k) := by
  intro c r c' f fs hc h
  rw [M.bind_def] at h
  rcases hmc : m c with ⟨res, c₁⟩
  rw [hmc] at h
  cases res with
  | ok a =>
      obtain ⟨hT, hB, ⟨g, hg, hgs, hgt, hge⟩, _⟩ := hm c (Except.ok a) c₁ f fs hc hmc
      obtain ⟨hT', hB', ⟨g', hg', hgs', hgt', hge'⟩, herr'⟩ := hk a c₁ r c' g fs hg h
      exact ⟨hT'.trans hT, hB'.trans hB,
        ⟨g', hg', hgs'.trans hgs, hgt'.trans hgt, Nat.le_trans hge hge'⟩, herr'⟩
  | error e =>
      obtain ⟨hT, hB, hg, herr⟩ := hm c (Except.error e) c₁ f fs hc hmc
      injection h with h1 h2
      subst h1; subst h2
      refine ⟨hT, hB, hg, ?_⟩
      intro e₂ he₂
      injection he₂ with he₂'
      exact herr e₂ (by rw [he₂'])

/-- The guard-wrapped repetition loop is a well-behaved body step: it
always succeeds and only grows the top frame's end. -/
theorem bodyGood_wstar (p : Char → Bool) (cm : String) : BodyGood (wstar p cm) := by
  intro c r c' f fs hc h
  obtain ⟨t, b, fr⟩ := c
  have hfr : fr = f :: fs := hc
  subst hfr
  obtain ⟨g, msg, eofFlag, heval, hgs, hgt, hge, _, _⟩ :=
    eatStarFuel_runs p cm (t.length - f.end_index + 1) t b f fs (by omega)
  have hidx : (TransactionalCursor.mk t b (f :: fs)).index = f.end_index := rfl
  have hrun : wstar p cm (TransactionalCursor.mk t b (f :: fs)) =
      (Except.ok (), TransactionalCursor.mk t b (g :: fs)) := by
    simp [wstar, guard, eatStar, hidx, heval]
  rw [hrun] at h
  injection h with h1 h2
  subst h1; subst h2
  refine ⟨rfl, rfl, ⟨g, rfl, hgs, hgt, hge⟩, ?_⟩
  intro e he
  exact absurd he (by simp)

/-- The matchers' scoped transaction, specified: with a well-behaved body
it either fails with the terminal match failure and the untouched starting
cursor, or succeeds with a token of the requested kind spanning exactly
the consumed characters, the committed cursor standing at the token's
end. -/
theorem scopedToken_spec {α : Type} (ty : String) (body : M α) (hb : BodyGood body)
    (c : TransactionalCursor) (r : Except LexError Token) (c' : TransactionalCursor)
    (h : scopedToken ty body c = (r, c')) :
    (r = Except.error LexError.ParsingFailed ∧ c' = c) ∨
    (∃ tok : Token, r = Except.ok tok ∧ tok.ty = ty ∧
       tok.start_index = c.index ∧ tok.end_index = c'.index ∧
       c.index ≤ tok.end_index ∧ c'.text = c.text) := by
  obtain ⟨t0, b0, fr0⟩ := c
  rcases hbody : body (TransactionalCursor.mk t0 b0 fr0).begin with ⟨res, ⟨t2, b2, fr2⟩⟩
  obtain ⟨hT, hB, ⟨g, hg, hgs, hgt, hge⟩, herr⟩ :=
    hb _ res (TransactionalCursor.mk t2 b2 fr2)
      (Frame.mk (TransactionalCursor.mk t0 b0 fr0).index
        (TransactionalCursor.mk t0 b0 fr0).index t0) fr0 rfl hbody
  have hT2 : t0 = t2 := (hT : t2 = t0).symm
  subst hT2
  have hB2 : b0 = b2 := (hB : b2 = b0).symm
  subst hB2
  have hg2 : fr2 = g :: fr0 := hg
  subst hg2
  cases res with
  | error e =>
      obtain ⟨s, bb, he⟩ := herr e rfl
      subst he
      have hrun : scopedToken ty body (TransactionalCursor.mk t0 b0 fr0) =
          (Except.error LexError.ParsingFailed, TransactionalCursor.mk t0 b0 fr0) := by
        simp [scopedToken, scopedTr, hbody, convertErr, TransactionalCursor.rollback]
      rw [hrun] at h
      injection h with h1 h2
      exact Or.inl ⟨h1.symm, h2.symm⟩
  | ok a =>
      right
      cases fr0 with
      | nil =>
          have hrun : scopedToken ty body (TransactionalCursor.mk t0 b0 []) =
              (Except.ok (g.token ty), TransactionalCursor.mk t0 g.end_index []) := by
            simp [scopedToken, scopedTr, hbody, TransactionalCursor.commit]
          rw [hrun] at h
          injection h with h1 h2
          subst h1; subst h2
          have hgs' : g.start_index = (TransactionalCursor.mk t0 b0 []).index := hgs
          have hge' : (TransactionalCursor.mk t0 b0 []).index ≤ g.end_index := hge
          exact ⟨g.token ty, rfl, rfl, hgs', rfl, hge', rfl⟩
      | cons pf rest =>
          have hrun : scopedToken ty body (TransactionalCursor.mk t0 b0 (pf :: rest)) =
              (Except.ok (g.token ty),
               TransactionalCursor.mk t0 b0
                 (Frame.mk pf.start_index g.end_index pf.text :: rest)) := by
            simp [scopedToken, scopedTr, hbody, TransactionalCursor.commit]
          rw [hrun] at h
          injection h with h1 h2
          subst h1; subst h2
          have hgs' : g.start_index = (TransactionalCursor.mk t0 b0 (pf :: rest)).index := hgs
          have hge' : (TransactionalCursor.mk t0 b0 (pf :: rest)).index ≤ g.end_index := hge
          exact ⟨g.token ty, rfl, rfl, hgs', rfl, hge', rfl⟩

/-! ### The five reference matchers -/

theorem p_str_spec (c : TransactionalCursor) (r : Except LexError Token)
    (c' : TransactionalCursor) (h : p_str c = (r, c')) :
    (r = Except.error LexError.ParsingFailed ∧ c' = c) ∨
    (∃ tok, r = Except.ok tok ∧ tok.ty = "STRING" ∧ tok.start_index = c.index ∧
       tok.end_index = c'.index ∧ c.index ≤ tok.end_index ∧ c'.text = c.text) := by
  unfold p_str at h
  refine scopedToken_spec _ _ ?_ c r c' h
  refine bodyGood_bind _ _ (bodyGood_eat_any _) ?_
  intro quote
  refine bodyGood_bind _ _ (bodyGood_wstar _ _) ?_
  intro _
  exact bodyGood_bind _ _ (bodyGood_eat_only _) (fun _ => bodyGood_pure ())

theorem p_dot_spec (c : TransactionalCursor) (r : Except LexError Token)
    (c' : TransactionalCursor) (h : p_dot c = (r, c')) :
    (r = Except.error LexError.ParsingFailed ∧ c' = c) ∨
    (∃ tok, r = Except.ok tok ∧ tok.ty = "DOT" ∧ tok.start_index = c.index ∧
       tok.end_index = c'.index ∧ c.index ≤ tok.end_index ∧ c'.text = c.text) := by
  unfold p_dot at h
  refine scopedToken_spec _ _ ?_ c r c' h
  exact bodyGood_bind _ _ (bodyGood_eat_only _) (fun _ => bodyGood_pure ())

theorem p_hex_spec (c : TransactionalCursor) (r : Except LexError Token)
    (c' : TransactionalCursor) (h : p_hex c = (r, c')) :
    (r = Except.error LexError.ParsingFailed ∧ c' = c) ∨
    (∃ tok, r = Except.ok tok ∧ tok.ty = "HEX" ∧ tok.start_index = c.index ∧
       tok.end_index = c'.index ∧ c.index ≤ tok.end_index ∧ c'.text = c.text) := by
  unfold p_hex at h
  refine scopedToken_spec _ _ ?_ c r c' h
  exact bodyGood_bind _ _ (bodyGood_eat_only _) (fun _ =>
    bodyGood_bind _ _ (bodyGood_eat_only _) (fun _ =>
      bodyGood_bind _ _ (bodyGood_eat_if _ _) (fun _ => bodyGood_wstar _ _)))

theorem p_bin_spec (c : TransactionalCursor) (r : Except LexError Token)
    (c' : TransactionalCursor) (h : p_bin c = (r, c')) :
    (r = Except.error LexError.ParsingFailed ∧ c' = c) ∨
    (∃ tok, r = Except.ok tok ∧ tok.ty = "BIN" ∧ tok.start_index = c.index ∧
       tok.end_index = c'.index ∧ c.index ≤ tok.end_index ∧ c'.text = c.text) := by
  unfold p_bin at h
  refine scopedToken_spec _ _ ?_ c r c' h
  exact bodyGood_bind _ _ (bodyGood_eat_only _) (fun _ =>
    bodyGood_bind _ _ (bodyGood_eat_only _) (fun _ =>
      bodyGood_bind _ _ (bodyGood_eat_if _ _) (fun _ => bodyGood_wstar _ _)))

theorem p_dec_spec (c : TransactionalCursor) (r : Except LexError Token)
    (c' : TransactionalCursor) (h : p_dec c = (r, c')) :
    (r = Except.error LexError.ParsingFailed ∧ c' = c) ∨
    (∃ tok, r = Except.ok tok ∧ tok.ty = "DEC" ∧ tok.start_index = c.index ∧
       tok.end_index = c'.index ∧ c.index ≤ tok.end_index ∧ c'.text = c.text) := by
  unfold p_dec at h
  refine scopedToken_spec _ _ ?_ c r c' h
  refine bodyGood_bind _ _ (bodyGood_eat_if _ _) ?_
  intro _
  refine bodyGood_bind _ _ (bodyGood_wstar _ _) ?_
  intro _
  refine bodyGood_bind _ _ bodyGood_peekM ?_
  intro pk
  by_cases hp : pk = some '.'
  · rw [if_pos hp]
    exact bodyGood_bind _ _ (bodyGood_eat_only _) (fun _ =>
      bodyGood_bind _ _ (bodyGood_eat_if _ _) (fun _ => bodyGood_wstar _ _))
  · rw [if_neg hp]
    exact bodyGood_pure ()

/-- **C2.** Every consumption failure raised inside a matcher's transaction
scope is caught and converted — inside the Eat Guard it merely ends the
repetition loop, and at the scope boundary it becomes the terminal match
failure: each of `p_str`, `p_dot`, `p_hex`, `p_bin`, `p_dec` either
returns a token or fails with `ParsingFailed`, so a raw consumption
failure (`EatFailed`) never escapes any of them to its caller. -/
theorem matchers_never_leak_eat_failure (c : TransactionalCursor) :
    ((p_str c).1 = Except.error LexError.ParsingFailed ∨ ∃ t, (p_str c).1 = Except.ok t) ∧
    ((p_dot c).1 = Except.error LexError.ParsingFailed ∨ ∃ t, (p_dot c).1 = Except.ok t) ∧
    ((p_hex c).1 = Except.error LexError.ParsingFailed ∨ ∃ t, (p_hex c).1 = Except.ok t) ∧
    ((p_bin c).1 = Except.error LexError.ParsingFailed ∨ ∃ t, (p_bin c).1 = Except.ok t) ∧
    ((p_dec c).1 = Except.error LexError.ParsingFailed ∨ ∃ t, (p_dec c).1 = Except.ok t) := by
  refine ⟨?_, ?_, ?_, ?_, ?_⟩
  · rcases p_str_spec c (p_str c).1 (p_str c).2 rfl with ⟨h1, _⟩ | ⟨t, h1, _⟩
    · exact Or.inl h1
    · exact Or.inr ⟨t, h1⟩
  · rcases p_dot_spec c (p_dot c).1 (p_dot c).2 rfl with ⟨h1, _⟩ | ⟨t, h1, _⟩
    · exact Or.inl h1
    · exact Or.inr ⟨t, h1⟩
  · rcases p_hex_spec c (p_hex c).1 (p_hex c).2 rfl with ⟨h1, _⟩ | ⟨t, h1, _⟩
    · exact Or.inl h1
    · exact Or.inr ⟨t, h1⟩
  · rcases p_bin_spec c (p_bin c).1 (p_bin c).2 rfl with ⟨h1, _⟩ | ⟨t, h1, _⟩
    · exact Or.inl h1
    · exact Or.inr ⟨t, h1⟩
  · rcases p_dec_spec c (p_dec c).1 (p_dec c).2 rfl with ⟨h1, _⟩ | ⟨t, h1, _⟩
    · exact Or.inl h1
    · exact Or.inr ⟨t, h1⟩

/-! ### The ordered-alternative dispatcher -/

/-- A rule fails cleanly when every failure it signals is the terminal
match failure and leaves the cursor untouched (which `scopedToken_spec`
grants to every matcher). -/
def CleanFail (pm : M Token) : Prop :=
  ∀ c e c', pm c = (Except.error e, c') → e = LexError.ParsingFailed ∧ c' = c

/-- The rule fails (with some failure) at this cursor. -/
def FailsAt (pm : M Token) (c : TransactionalCursor) : Prop :=
  ∃ e c', pm c = (Except.error e, c')

theorem p_dot_cleanFail : CleanFail p_dot := by
  intro c e c' h
  rcases p_dot_spec c (Except.error e) c' h with ⟨h1, h2⟩ | ⟨t, h1, _⟩
  · injection h1 with h1'
    exact ⟨h1', h2⟩
  · exact Except.noConfusion h1

theorem firstParser_all_fail (ps : List (M Token)) (c : TransactionalCursor)
    (hclean : ∀ p ∈ ps, CleanFail p) (hfail : ∀ p ∈ ps, FailsAt p c) :
    firstParser ps c = (Except.error LexError.ParsingFailed, c) := by
  induction ps with
  | nil => rfl
  | cons p ps ih =>
      obtain ⟨e, c'', hp⟩ := hfail p (by simp)
      obtain ⟨he, hc''⟩ := hclean p (by simp) c e c'' hp
      subst he; subst hc''
      simp only [firstParser, hp]
      exact ih (fun q hq => hclean q (by simp [hq])) (fun q hq => hfail q (by simp [hq]))

theorem firstParser_first_success (c : TransactionalCursor) :
    ∀ (ps₁ : List (M Token)) (q : M Token) (ps₂ : List (M Token)),
      (∀ p ∈ ps₁, CleanFail p) → (∀ p ∈ ps₁, FailsAt p c) →
      ∀ t c', q c = (Except.ok t, c') →
      firstParser (ps₁ ++ q :: ps₂) c = (Except.ok t, c') := by
  intro ps₁
  induction ps₁ with
  | nil =>
      intro q ps₂ _ _ t c' hq
      simp only [List.nil_append, firstParser, hq]
  | cons p ps₁ ih =>
      intro q ps₂ hclean hfail t c' hq
      obtain ⟨e, c'', hp⟩ := hfail p (by simp)
      obtain ⟨he, hc''⟩ := hclean p (by simp) c e c'' hp
      subst he; subst hc''
      simp only [List.cons_append, firstParser, hp]
      exact ih q ps₂ (fun r hr => hclean r (by simp [hr])) (fun r hr => hfail r (by simp [hr]))
        t c' hq

/-- **C4.** For every rule list whose rules fail cleanly (as all matchers
do) and every cursor, `first_parser` tries each rule in list order against
the same starting cursor: it returns the token of the first rule that
succeeds, and it raises the terminal `ParsingFailed` — with the cursor at
its starting state — only when every rule in the list has been tried and
has failed. -/
theorem firstParser_ordered_dispatch (ps : List (M Token)) (c : TransactionalCursor)
    (hclean : ∀ p ∈ ps, CleanFail p) :
    ((∀ p ∈ ps, FailsAt p c) → firstParser ps c = (Except.error LexError.ParsingFailed, c)) ∧
    (∀ (ps₁ : List (M Token)) (q : M Token) (ps₂ : List (M Token)),
       ps = ps₁ ++ q :: ps₂ → (∀ p ∈ ps₁, FailsAt p c) →
       ∀ t c', q c = (Except.ok t, c') → firstParser ps c = (Except.ok t, c')) := by
  constructor
  · exact firstParser_all_fail ps c hclean
  · intro ps₁ q ps₂ hps hfail t c' hq
    subst hps
    exact firstParser_first_success c ps₁ q ps₂
      (fun p hp => hclean p (List.mem_append_left _ hp)) hfail t c' hq

/-- Witness for C4: the one-rule list `[p_dot]` on text `"x"`; the rule
fails cleanly, so the dispatcher fails with `ParsingFailed` and the cursor
back at its starting state. -/
theorem firstParser_ordered_dispatch_witness :
    firstParser [p_dot] (initCursor [ 'x' ]) =
      (Except.error LexError.ParsingFailed, initCursor [ 'x' ]) := by
  refine (firstParser_ordered_dispatch [p_dot] (initCursor [ 'x' ]) ?_).1 ?_
  · intro p hp
    rw [List.mem_singleton] at hp
    subst hp
    exact p_dot_cleanFail
  · intro p hp
    rw [List.mem_singleton] at hp
    subst hp
    exact ⟨LexError.ParsingFailed, initCursor [ 'x' ], by decide⟩

/-! ### End-to-end runs of the driver -/

/-- Counterexample to C8 as stated: lexing `"1..2"` with the registered
rule list does not produce `[DEC "1", DOT ".", DOT ".", DEC "2"]` — the
very first dispatch already fails terminally, so the whole run raises
`ParsingFailed` and yields no token sequence at all. -/
theorem lex_dots_counterexample :
    (rootParser 9 (initCursor [ '1', '.', '.', '2' ])).1 =
      Except.error LexError.ParsingFailed := by
  decide

/-- **C8 (amended).** Lexing `"1..2"` terminates with the terminal
`ParsingFailed` at the first dispatch, producing no tokens, and the cursor
still at position 0: the decimal matcher consumes `1` and the following
`.`, then requires a fractional digit, finds `.`, fails, and its rollback
is all-or-nothing, so no rule matches at position 0 at all. -/
theorem lex_one_dot_dot_two :
    rootParser 9 (initCursor [ '1', '.', '.', '2' ]) =
      (Except.error LexError.ParsingFailed, initCursor [ '1', '.', '.', '2' ]) ∧
    (p_dec (initCursor [ '1', '.', '.', '2' ])).1 = Except.error LexError.ParsingFailed := by
  exact ⟨by decide, by decide⟩

/-- **C9.** Running the lexing driver on the empty input produces the
empty token sequence and terminates normally, whatever the (positive)
fuel: end of input is observed at the first dispatch boundary, no rule is
invoked and no failure is raised. -/
theorem lex_empty_input (fuel : Nat) :
    rootParser (fuel + 1) (initCursor []) = (Except.ok [], initCursor []) := rfl

/-! ### The per-frame invariant -/

/-- The cursor states reachable from a fresh cursor through the cursor's
own operations: `begin`, `commit`, `rollback` and `eat_if` (which is the
only caller of `move`). -/
inductive Reach : TransactionalCursor → Prop where
  | init (text : List Char) : Reach (initCursor text)
  | beginStep (c : TransactionalCursor) : Reach c → Reach c.begin
  | commitStep (c : TransactionalCursor) : Reach c → Reach c.commit
  | rollbackStep (c : TransactionalCursor) : Reach c → Reach c.rollback
  | eatStep (p : Char → Bool) (cm : String) (c : TransactionalCursor) :
      Reach c → Reach (eat_if p cm c).2

/-- The inductive stack invariant: every frame satisfies
`start_index ≤ end_index`, and each frame's start is the end of the frame
below it (frames chain contiguously). -/
def framesOk : List Frame → Prop
  | [] => True
  | [f] => f.start_index ≤ f.end_index
  | f :: g :: rest =>
      f.start_index ≤ f.end_index ∧ f.start_index = g.end_index ∧ framesOk (g :: rest)

theorem framesOk_all (l : List Frame) (h : framesOk l) :
    ∀ f ∈ l, f.start_index ≤ f.end_index := by
  induction l with
  | nil =>
      intro f hf
      cases hf
  | cons a l ih =>
      intro f hf
      cases l with
      | nil =>
          rw [List.mem_singleton] at hf
          subst hf
          exact h
      | cons g rest =>
          obtain ⟨h1, h2, h3⟩ := h
          rcases List.mem_cons.mp hf with hf | hf
          · subst hf; exact h1
          · exact ih h3 f hf

theorem framesOk_begin (c : TransactionalCursor) (h : framesOk c.frames) :
    framesOk c.begin.frames := by
  obtain ⟨t, b, fr⟩ := c
  cases fr with
  | nil => exact Nat.le_refl b
  | cons f fs => exact ⟨Nat.le_refl _, rfl, h⟩

theorem framesOk_commit (c : TransactionalCursor) (h : framesOk c.frames) :
    framesOk c.commit.frames := by
  obtain ⟨t, b, fr⟩ := c
  cases fr with
  | nil => trivial
  | cons top fr2 =>
      cases fr2 with
      | nil => trivial
      | cons parent rest =>
          obtain ⟨h1, h2, h3⟩ := h
          cases rest with
          | nil =>
              show parent.start_index ≤ top.end_index
              have h4 : parent.start_index ≤ parent.end_index := h3
              omega
          | cons g2 rest2 =>
              obtain ⟨h4, h5, h6⟩ := h3
              exact ⟨by dsimp only; omega, h5, h6⟩

theorem framesOk_rollback (c : TransactionalCursor) (h : framesOk c.frames) :
    framesOk c.rollback.frames := by
  obtain ⟨t, b, fr⟩ := c
  cases fr with
  | nil => trivial
  | cons f fs =>
      cases fs with
      | nil => trivial
      | cons g rest => exact h.2.2

theorem framesOk_move1 (c : TransactionalCursor) (h : framesOk c.frames) :
    framesOk (c.move 1).frames := by
  obtain ⟨t, b, fr⟩ := c
  cases fr with
  | nil => exact h
  | cons f fs =>
      cases fs with
      | nil =>
          show f.start_index ≤ f.end_index + 1
          have : f.start_index ≤ f.end_index := h
          omega
      | cons g rest =>
          obtain ⟨h1, h2, h3⟩ := h
          exact ⟨by dsimp only; omega, h2, h3⟩

/-- `eat_if` either leaves the cursor alone or moves it by one. -/
theorem eat_if_snd (p : Char → Bool) (cm : String) (c : TransactionalCursor) :
    (eat_if p cm c).2 = c ∨ (eat_if p cm c).2 = c.move 1 := by
  obtain ⟨t, b, fr⟩ := c
  rcases hpk : (TransactionalCursor.mk t b fr).peek with _ | ch
  · left
    simp [eat_if, hpk]
  · rcases hpch : p ch with _ | _
    · left
      simp [eat_if, hpk, hpch]
    · cases fr with
      | nil =>
          left
          simp [eat_if, hpk, hpch]
      | cons f fs =>
          right
          simp [eat_if, hpk, hpch, TransactionalCursor.move]

theorem framesOk_eat_if (p : Char → Bool) (cm : String) (c : TransactionalCursor)
    (h : framesOk c.frames) : framesOk ((eat_if p cm c).2).frames := by
  rcases eat_if_snd p cm c with h' | h'
  · rw [h']; exact h
  · rw [h']; exact framesOk_move1 c h

/-- **C10.** For every frame on the stack of a cursor reachable through
any sequence of the cursor operations (`begin`, `eat_if` — hence `move` as
`eat_if` invokes it — `commit` and `rollback`, from a fresh cursor),
`start_index ≤ end_index` holds: `begin` creates frames with start equal
to end and every operation preserves the invariant. -/
theorem frame_start_le_end (c : TransactionalCursor) (h : Reach c) :
    ∀ f ∈ c.frames, f.start_index ≤ f.end_index := by
  have hOk : framesOk c.frames := by
    induction h with
    | init text => trivial
    | beginStep c hc ih => exact framesOk_begin c ih
    | commitStep c hc ih => exact framesOk_commit c ih
    | rollbackStep c hc ih => exact framesOk_rollback c ih
    | eatStep p cm c hc ih => exact framesOk_eat_if p cm c ih
  exact framesOk_all _ hOk

/-- Witness for C10: the frame pushed by `begin` on a fresh cursor over
`"a"` satisfies the invariant. -/
theorem frame_start_le_end_witness :
    (Frame.mk 0 0 [ 'a' ]).start_index ≤ (Frame.mk 0 0 [ 'a' ]).end_index :=
  frame_start_le_end _ (Reach.beginStep _ (Reach.init [ 'a' ]))
    (Frame.mk 0 0 [ 'a' ]) (by decide)

end Pylex
